import Mathlib

/-!
Verification of the on-screen-display path/motion engine against its design
specification.

The development shallowly embeds the Python sources (`bomb.py`,
`moving_node.py`, `path_map.py`, `upper_screen.py`) into Lean: pure
computations become Lean functions over `ℚ` (exact rational arithmetic in
place of IEEE floats), optional Python arguments become `Option` values
together with the source's truthiness tests, fallible code returns `Except`,
and the stateful updater loop becomes explicit state passing.  Euclidean
norms and Bézier arc lengths, which the sources obtain from `numpy` and the
external `bezier` library and whose exact values are irrational, are passed
in as abstract parameters; every control-flow decision of the sources is
kept verbatim.
-/

namespace OnScreenDisplay

/-! ## Python-semantics helpers -/

/-- Python `int(x)`: truncation toward zero.  On a normalized rational this is
truncating division of the numerator by the denominator. -/
def pyint (x : ℚ) : ℤ := x.num.tdiv x.den

/-- Python `x % m` on floats (for `m > 0`): `x - m * floor (x / m)`, the
remainder with the sign of the divisor. -/
def pymod (x m : ℚ) : ℚ := x - m * ⌊x / m⌋

/-- Resolution of an optional time argument under Python's truthiness test
`if not t: t = time.time()`: both a missing argument and the falsy value `0`
are replaced by the current wall-clock time `now`. -/
def resolveT (t : Option ℚ) (now : ℚ) : ℚ :=
  match t with
  | none => now
  | some x => if x = 0 then now else x

/-! ## bomb.py -/

/-- RGBA color with integer components, as the Python tuples. -/
abbrev RGBA := ℤ × ℤ × ℤ × ℤ

/-- `Bomb` (bomb.py lines 27-50): position, timing and appearance of one
effect.  `r0`/`r1` are class attributes that no code path overrides, so the
constructor always stores the class defaults 10 and 20. -/
structure Bomb where
  position : ℚ × ℚ
  t0 : ℚ
  duration : ℚ
  r0 : ℚ
  r1 : ℚ
  color : RGBA
  name : String
  t1 : ℚ
deriving DecidableEq

/-- `Bomb.__init__` (bomb.py lines 39-50).  `if not t0:` replaces a missing or
zero `t0` by `time.time()` (modelled by `now`); `if duration:` keeps the class
default `1.0` when `duration` is `None` or `0`; `if color:`/`if name:` keep the
class defaults for `None` (a 4-tuple is always truthy, an empty string is
falsy); finally `t1 = t0 + duration`. -/
def Bomb.init (position : ℚ × ℚ) (t0 duration : Option ℚ) (color : Option RGBA)
    (name : Option String) (now : ℚ) : Bomb :=
  let t0v := resolveT t0 now
  let durv := match duration with
    | some d => if d = 0 then 1 else d
    | none => 1
  let colv := color.getD (255, 0, 0, 255)
  let namev := match name with
    | some s => if s = "" then "name of MovingNode" else s
    | none => "name of MovingNode"
  { position := position, t0 := t0v, duration := durv, r0 := 10, r1 := 20,
    color := colv, name := namev, t1 := t0v + durv }

/-- `Bomb.fetch_now` (bomb.py lines 52-66): resolves the optional time, then
`progress = 1 - (t - t0)/duration` and
`radius = r0 * progress + r1 * (1 - progress)`; returns `(radius, progress)`. -/
def Bomb.fetch_now (b : Bomb) (t : Option ℚ) (now : ℚ) : ℚ × ℚ :=
  let tv := resolveT t now
  let progress := 1 - (tv - b.t0) / b.duration
  let radius := b.r0 * progress + b.r1 * (1 - progress)
  (radius, progress)

/-- `Bomb.check_if_expired` (bomb.py lines 68-78): resolves the optional time
and returns `t > t1`. -/
def Bomb.check_if_expired (b : Bomb) (t : Option ℚ) (now : ℚ) : Bool :=
  decide (resolveT t now > b.t1)

/-- The alpha channel used by `Bomb.draw` (bomb.py lines 80-88):
`a = int(self.color[3] * progress)` with `progress` from `fetch_now`. -/
def Bomb.draw_alpha (b : Bomb) (t : Option ℚ) (now : ℚ) : ℤ :=
  pyint ((b.color.2.2.2 : ℚ) * (b.fetch_now t now).2)

/-! ## moving_node.py — MovingNode motion state and updater loop -/

/-- The motion-related mutable fields of a `MovingNode`
(moving_node.py lines 116-134). -/
structure MotionS where
  running : Bool
  distance : ℚ
  speed : ℚ
  speed_unit : ℚ
deriving DecidableEq

/-- `MovingNode.go` (moving_node.py lines 137-139): the body is exactly
`Thread(target=self._moving_loop, daemon=True).start()` — there is no guard on
`self.running`, so a new updater thread is spawned regardless of the state. -/
def go_spawns_updater (_ : MotionS) : Bool := true

/-- The prologue of `MovingNode._moving_loop` (moving_node.py lines 160-165),
run by each freshly spawned updater thread: when `self.running` is already
true it logs an error (line 162, `Can not start moving, since it is already
moving.`) but there is no `return`, so execution falls through to
`self.running = True` and the `while` loop in every case.  Result: (whether
the already-running error was logged, state after the assignment). -/
def moving_loop_prologue (s : MotionS) : Bool × MotionS :=
  (s.running, { s with running := true })

/-- One iteration of the `while self.running:` body
(moving_node.py lines 172-182), executed by one updater thread over a
wall-clock interval `dt`: `distance += speed * speed_unit * dt`. -/
def moving_loop_iter (s : MotionS) (dt : ℚ) : MotionS :=
  if s.running then
    { s with distance := s.distance + s.speed * s.speed_unit * dt }
  else s

/-- `MovingNode.stop` (moving_node.py lines 141-143): clears the running
flag. -/
def MotionS.stop (s : MotionS) : MotionS := { s with running := false }

/-! ## moving_node.py — the `_rlock` class attribute -/

/-- The line `_rlock = RLock()` (moving_node.py line 130) sits in the class
body of `MovingNode`, so Python evaluates it exactly once, when the class
object is created: a single `RLock` object, identified here by its allocation
id. -/
def movingNodeClassRlock : ℕ := 0

/-- The attribute state of one `MovingNode` instance that is relevant to lock
identity.  `instanceDict_rlock` models the instance `__dict__` entry for the
name `_rlock`; no method of the source ever assigns `self._rlock`, so only
Python's fallback to the class attribute can supply the lock. -/
structure MovingNodePy where
  speed_unit : ℚ
  instanceDict_rlock : Option ℕ
deriving DecidableEq

/-- `MovingNode.__init__` (moving_node.py lines 132-135): stores `speed_unit`
and nothing else — in particular it writes no per-instance `_rlock`. -/
def MovingNode_init (speed_unit : ℚ) : MovingNodePy :=
  { speed_unit := speed_unit, instanceDict_rlock := none }

/-- Python attribute lookup for `self._rlock`, as performed by
`MovingNode.lock` (moving_node.py lines 145-151) and hence by every mutator,
the updater loop and the compositor's snapshot read: the instance `__dict__`
first, then the class attribute. -/
def rlockOf (mn : MovingNodePy) : ℕ :=
  mn.instanceDict_rlock.getD movingNodeClassRlock

/-! ## moving_node.py — BombThrower -/

/-- `BombThrower.compute_next_t_throw` (moving_node.py lines 71-85): resolves
the optional time with the same truthiness test and returns `t + dt`, where
`dt = -ln(u)/lamb` is the exponentially distributed inter-arrival draw; `dt`
is passed in abstractly since its exact value is irrational. -/
def compute_next_t_throw (t : Option ℚ) (now dt : ℚ) : ℚ :=
  resolveT t now + dt

/-- `BombThrower.throw_bomb` (moving_node.py lines 87-113), restricted to its
timing behaviour: with `t_throw = None` no throw is allowed; otherwise the
optional time argument is resolved (`if not t: t = time.time()`), an awaiting
bomb (`t < t_throw`) yields no throw, and a due bomb fires and reschedules via
`compute_next_t_throw(t)`.  Returns (whether a bomb was thrown, the new
`t_throw`). -/
def throw_bomb (t_throw : Option ℚ) (dt : ℚ) (t : Option ℚ) (now : ℚ) :
    Bool × Option ℚ :=
  match t_throw with
  | none => (false, none)
  | some tw =>
    let tv := resolveT t now
    if tv < tw then (false, some tw)
    else (true, some (compute_next_t_throw (some tv) now dt))

/-! ## path_map.py — checkpoint extension and curve construction

2-D points are `ℚ × ℚ`.  `np.linalg.norm`, whose exact value is irrational,
is passed in as an abstract function `norm`; the sources use it only in
comparisons and divisions, and no claim below depends on the numeric value of
a constructed control point. -/

/-- A 2-D checkpoint / position. -/
abbrev Point := ℚ × ℚ

/-- Pointwise sum of two points (numpy array addition). -/
def padd (p q : Point) : Point := (p.1 + q.1, p.2 + q.2)

/-- Pointwise difference of two points (numpy array subtraction). -/
def psub (p q : Point) : Point := (p.1 - q.1, p.2 - q.2)

/-- Scalar multiple of a point (numpy scalar-array product). -/
def pscale (c : ℚ) (p : Point) : Point := (c * p.1, c * p.2)

/-- Errors the curve-construction pipeline can produce.  The sources raise
only Python `NameError` (an unbound local) and `IndexError`;
`degenerateInput` is the error kind named by the design document, which no
code path produces. -/
inductive PyErr where
  | nameError
  | indexError
  | degenerateInput
deriving DecidableEq

/-- The loop body of `extend_check_points` (path_map.py lines 63-73) for one
consecutive pair: if the chord is longer than the threshold, emit `p1` and the
two tail points at fraction `r = tail_length / length` toward each end,
otherwise emit `p1` alone. -/
def extendChunk (norm : Point → ℚ) (thr tail : ℚ) (p1 p2 : Point) :
    List Point :=
  let length := norm (psub p1 p2)
  if length > thr then
    let r := tail / length
    [p1, padd (pscale (1 - r) p1) (pscale r p2),
     padd (pscale (1 - r) p2) (pscale r p1)]
  else [p1]

/-- The `for i in range(n-1)` loop of `extend_check_points`
(path_map.py lines 63-73), walking consecutive pairs in order. -/
def extendPairs (norm : Point → ℚ) (thr tail : ℚ) : List Point → List Point
  | p1 :: p2 :: rest =>
    extendChunk norm thr tail p1 p2 ++ extendPairs norm thr tail (p2 :: rest)
  | _ => []

/-- `extend_check_points` (path_map.py lines 53-75) with its default
`length_threshold = 0.3`, `tail_length = 0.1`.  After the loop the source
executes `extended_check_points.append(p2)` with the loop variable `p2`: when
fewer than 2 checkpoints are supplied the loop never ran, `p2` is an unbound
local and Python raises `NameError`; otherwise `p2` is the last checkpoint. -/
def extend_check_points (norm : Point → ℚ) (cps : List Point) :
    Except PyErr (List Point) :=
  if cps.length < 2 then .error .nameError
  else .ok (extendPairs norm (3/10) (1/10) cps ++ [(cps.getLast?).getD (0, 0)])

/-- The `left`/`right` control points of `mk_curve`
(path_map.py lines 85-99) at checkpoint index `i`.  Interior checkpoints
offset `b = cps[i]` along the chord `a - c` of the neighbours by
`0.05 / length`; the endpoints use the checkpoint itself and the midpoint
toward its neighbour.  When `a = c` numpy's division by `length = 0` yields
`nan` silently (a warning, not an exception); the `ℚ` convention `x / 0 = 0`
differs in value only, and no claim inspects these values. -/
def ctrlPoint (norm : Point → ℚ) (cps : List Point) (i : ℕ) : Point × Point :=
  let n := cps.length
  if i = 0 then
    (cps.getD 0 (0, 0),
     padd (pscale (1/2) (cps.getD 0 (0, 0))) (pscale (1/2) (cps.getD 1 (0, 0))))
  else if i = n - 1 then
    (padd (pscale (1/2) (cps.getD (n-1) (0, 0)))
       (pscale (1/2) (cps.getD (n-2) (0, 0))),
     cps.getD (n-1) (0, 0))
  else
    let a := cps.getD (i-1) (0, 0)
    let b := cps.getD i (0, 0)
    let c := cps.getD (i+1) (0, 0)
    let length := norm (psub a c)
    (padd b (pscale ((5/100) / length) (psub a c)),
     psub b (pscale ((5/100) / length) (psub a c)))

/-- A cubic Bézier segment as handed to `bezier.Curve.from_nodes`
(path_map.py lines 100-107): start, the previous checkpoint's right control
point, this checkpoint's left control point, end. -/
def mkSeg (norm : Point → ℚ) (cps : List Point) (i : ℕ) :
    Point × Point × Point × Point :=
  (cps.getD (i-1) (0, 0), (ctrlPoint norm cps (i-1)).2,
   (ctrlPoint norm cps i).1, cps.getD i (0, 0))

/-- `mk_curve` (path_map.py lines 78-108): indexing `check_points[1]` and
`check_points[-2]` raises `IndexError` for fewer than 2 points; otherwise the
`for i in range(1, n)` loop builds one cubic segment per consecutive pair and
no exception is possible (numpy division by zero only warns). -/
def mk_curve (norm : Point → ℚ) (cps : List Point) :
    Except PyErr (List (Point × Point × Point × Point)) :=
  if cps.length < 2 then .error .indexError
  else .ok ((List.range (cps.length - 1)).map fun j => mkSeg norm cps (j + 1))

/-- The curve-construction prefix of `PathMap.setup_road`
(path_map.py lines 172-175): `extend_check_points` followed by `mk_curve` on
the extended sequence. -/
def setup_road_curves (norm : Point → ℚ) (cps : List Point) :
    Except PyErr (List (Point × Point × Point × Point)) :=
  (extend_check_points norm cps).bind (mk_curve norm)

/-! ## path_map.py — the large_table distance column -/

/-- `np.linspace a b n` with `endpoint=True`: the `n` values
`a + (b - a) * i / (n - 1)`.  For `n = 1` numpy returns `[a]`, matched here by
the `ℚ` convention `x / 0 = 0`. -/
def linspace (a b : ℚ) (n : ℕ) : List ℚ :=
  (List.range n).map fun i : ℕ => a + (b - a) * (i : ℚ) / ((n : ℚ) - 1)

/-- The per-segment row budget (path_map.py lines 193-194):
`int(length / total_curve_length * total_points)`, Python `int()` truncation;
arc lengths are non-negative so this is a `ℕ`. -/
def segN (total : ℚ) (totalPoints : ℕ) (len : ℚ) : ℕ :=
  (pyint (len / total * totalPoints)).toNat

/-- The `for i, slice in segment_table.iterrows()` loop of `setup_road`
(path_map.py lines 199-210) restricted to the `distance` column: segment `i`
contributes `np.linspace(offset, offset + length, n)` where
`offset = cumsum(length) - length` is the running exclusive prefix sum,
carried here as an accumulator. -/
def segDistances (total : ℚ) (totalPoints : ℕ) :
    ℚ → List ℚ → List ℚ
  | _, [] => []
  | offset, len :: rest =>
    linspace offset (offset + len) (segN total totalPoints len) ++
      segDistances total totalPoints (offset + len) rest

/-- The `distance` column of `large_table` built by `setup_road`
(path_map.py lines 188-215) from the segment arc lengths (obtained in the
source from the external `bezier` library's numerical integration, hence
taken here as the input list). -/
def distance_column (lengths : List ℚ) (totalPoints : ℕ) : List ℚ :=
  segDistances lengths.sum totalPoints 0 lengths

/-! ## path_map.py — distance-to-position lookup -/

/-- One row of `large_table` as read by the lookup: cumulative distance and
2-D position. -/
structure TableRow where
  distance : ℚ
  pos : Point
deriving DecidableEq

/-- The lookup of `PathMap.draw_node_at_distance`
(path_map.py lines 314-333): wrap the entity's distance modulo
`total_curve_length` (line 316), take the rows whose `distance` is strictly
less than the query in table order and pick the last (`iloc[-1]`, lines
329-331); on `IndexError` (no such row) fall back to the first row
(`iloc[0]`, line 333).  `none` models the uncaught `IndexError` of `iloc[0]`
on an empty table.  No interpolation is performed. -/
def draw_node_lookup (table : List TableRow) (totalCurveLength : ℚ)
    (mnDistance : ℚ) : Option TableRow :=
  let distance := pymod mnDistance totalCurveLength
  match (table.filter fun r => decide (r.distance < distance)).getLast? with
  | some r => some r
  | none => table.head?

/-! ## upper_screen.py — the remove_node handler -/

/-- The per-entity state the registry stores, restricted to what the claim
reads. -/
structure NodeRec where
  running : Bool
  distance : ℚ
deriving DecidableEq

/-- The `remove_node` branch of `RequestHandler.handle`
(upper_screen.py lines 245-250): `moving_nodes_pool.pop(name)` with
`KeyError` ignored.  The registry is a Python dict (unique keys), modelled as
an association list; `pop` drops the binding and hands back the stored object
exactly as it was — no method of the entity, in particular not `stop()`, is
called.  Returns (the registry after the pop, the popped entity's state). -/
def handle_remove_node (pool : List (String × NodeRec)) (name : String) :
    List (String × NodeRec) × Option NodeRec :=
  (pool.filter fun p => decide (p.1 ≠ name), pool.lookup name)

/-- The Euclidean norm at the only argument vectors the concrete inputs of
the theorems below make the pipeline evaluate: the zero vector has norm 0 and
any other vector that occurs is a unit axis vector of norm 1 (both values
exact for `np.linalg.norm`). -/
def normOnAxis (p : Point) : ℚ := if p = (0, 0) then 0 else 1

/-! ## Helper lemmas -/

/-- `pyint` of an integer is that integer. -/
theorem pyint_intCast (n : ℤ) : pyint (n : ℚ) = n := by
  simp [pyint, Rat.num_intCast, Rat.den_intCast, Int.tdiv_one]

/-- Looking a key up after filtering out every binding with that key yields
nothing. -/
theorem lookup_filter_ne (name : String) (pool : List (String × NodeRec)) :
    (pool.filter fun p => decide (p.1 ≠ name)).lookup name = none := by
  induction pool with
  | nil => rfl
  | cons p t ih =>
    rw [List.filter_cons]
    by_cases h : p.1 = name
    · simpa [h] using ih
    · have hb : (name == p.1) = false := by
        simpa [beq_iff_eq] using fun hc => h hc.symm
      simp [h, List.lookup, hb, ih]
      exact fun a b _ hne hc => hne hc.symm

/-- In a `Pairwise R` list, every member is either the last element or is
`R`-related to it. -/
theorem pairwise_rel_getLast {α : Type} {R : α → α → Prop} :
    ∀ {l : List α} {a x : α}, l.Pairwise R → x ∈ l → l.getLast? = some a →
      x = a ∨ R x a := by
  intro l
  induction l with
  | nil => intro a x _ hx _; cases hx
  | cons b t ih =>
    intro a x hp hx hl
    cases t with
    | nil =>
      have hba : b = a := by simpa using hl
      have hxb : x = b := by simpa using hx
      exact Or.inl (hxb.trans hba)
    | cons c t' =>
      rw [List.getLast?_cons_cons] at hl
      rcases List.mem_cons.mp hx with hxb | hxt
      · refine Or.inr ?_
        subst hxb
        have ha : a ∈ c :: t' := by
          obtain ⟨hne', rfl⟩ := List.mem_getLast?_eq_getLast hl
          exact List.getLast_mem hne'
        exact (List.pairwise_cons.mp hp).1 a ha
      · exact ih (List.pairwise_cons.mp hp).2 hxt hl

/-- Each `extendChunk` loop body emits at least one point. -/
theorem extendChunk_length_pos (norm : Point → ℚ) (thr tail : ℚ)
    (p1 p2 : Point) : 0 < (extendChunk norm thr tail p1 p2).length := by
  rw [extendChunk]
  split <;> simp

/-- The pair loop of `extend_check_points` emits at least one point whenever
there are at least two checkpoints. -/
theorem extendPairs_length_pos (norm : Point → ℚ) (thr tail : ℚ)
    (p1 p2 : Point) (rest : List Point) :
    0 < (extendPairs norm thr tail (p1 :: p2 :: rest)).length := by
  rw [extendPairs, List.length_append]
  have := extendChunk_length_pos norm thr tail p1 p2
  omega

/-- Every sample of `linspace a b n` with `a ≤ b` lies in `[a, b]`. -/
theorem linspace_mem_bounds (a b : ℚ) (hab : a ≤ b) (n : ℕ) :
    ∀ x ∈ linspace a b n, a ≤ x ∧ x ≤ b := by
  intro x hx
  simp only [linspace, List.mem_map, List.mem_range] at hx
  obtain ⟨i, hi, rfl⟩ := hx
  rcases Nat.lt_or_ge n 2 with h2 | h2
  · have hi0 : i = 0 := by omega
    subst hi0
    simp only [Nat.cast_zero, mul_zero, zero_div, add_zero]
    exact ⟨le_refl a, hab⟩
  · have hm : (0 : ℚ) < (n : ℚ) - 1 := by
      have : (2 : ℚ) ≤ (n : ℚ) := by exact_mod_cast h2
      linarith
    constructor
    · have h0 : 0 ≤ (b - a) * (i : ℚ) / ((n : ℚ) - 1) :=
        div_nonneg (mul_nonneg (by linarith) (by positivity)) (le_of_lt hm)
      linarith
    · have hi' : (i : ℚ) ≤ (n : ℚ) - 1 := by
        have : (i : ℚ) + 1 ≤ (n : ℚ) := by exact_mod_cast Nat.succ_le_of_lt hi
        linarith

      have hfrac : (b - a) * (i : ℚ) / ((n : ℚ) - 1) ≤ b - a := by
        rw [div_le_iff₀ hm]
        calc (b - a) * (i : ℚ) ≤ (b - a) * ((n : ℚ) - 1) :=
              mul_le_mul_of_nonneg_left hi' (by linarith)
          _ = (b - a) * ((n : ℚ) - 1) := rfl
      linarith

/-- `linspace a b n` is non-decreasing when `a ≤ b`. -/
theorem linspace_chain (a b : ℚ) (hab : a ≤ b) (n : ℕ) :
    List.Chain' (· ≤ ·) (linspace a b n) := by
  rw [linspace, List.chain'_map]
  cases n with
  | zero => simp
  | succ m =>
    rw [List.chain'_range_succ]
    intro i hi
    have hden : ((m + 1 : ℕ) : ℚ) - 1 = (m : ℚ) := by push_cast; ring
    rw [hden]
    have hm0 : (0 : ℚ) < (m : ℚ) := by
      have : 1 ≤ m := by omega
      exact_mod_cast this
    have hnum : (b - a) * (i : ℚ) ≤ (b - a) * ((i + 1 : ℕ) : ℚ) := by
      apply mul_le_mul_of_nonneg_left _ (by linarith)
      push_cast
      linarith
    calc a + (b - a) * (i : ℚ) / (m : ℚ)
        ≤ a + (b - a) * ((i + 1 : ℕ) : ℚ) / (m : ℚ) := by gcongr
      _ = a + (b - a) * ((i + 1 : ℕ) : ℚ) / (m : ℚ) := rfl

/-- Every entry the segment loop writes from offset `offset` onward lies in
`[offset, offset + sum of remaining lengths]`. -/
theorem segDistances_mem_bounds (total : ℚ) (N : ℕ) :
    ∀ (ls : List ℚ) (offset : ℚ), (∀ l ∈ ls, 0 ≤ l) →
      ∀ x ∈ segDistances total N offset ls, offset ≤ x ∧ x ≤ offset + ls.sum := by
  intro ls
  induction ls with
  | nil =>
    intro offset _ x hx
    simp [segDistances] at hx
  | cons len rest ih =>
    intro offset hpos x hx
    rw [segDistances] at hx
    have hlen0 : 0 ≤ len := hpos len (List.mem_cons_self _ _)
    have hrest : ∀ l ∈ rest, 0 ≤ l := fun l hl => hpos l (List.mem_cons_of_mem _ hl)
    have hsum : 0 ≤ rest.sum := List.sum_nonneg hrest
    rw [List.sum_cons]
    rcases List.mem_append.mp hx with hc | hr
    · have hb := linspace_mem_bounds offset (offset + len) (by linarith) _ x hc
      exact ⟨hb.1, by linarith [hb.2]⟩
    · have hb := ih (offset + len) hrest x hr
      exact ⟨by linarith [hb.1], by linarith [hb.2]⟩

/-- The concatenated distance entries are non-decreasing: each segment's
samples are non-decreasing and end below the next segment's offset. -/
theorem segDistances_chain (total : ℚ) (N : ℕ) :
    ∀ (ls : List ℚ) (offset : ℚ), (∀ l ∈ ls, 0 ≤ l) →
      List.Chain' (· ≤ ·) (segDistances total N offset ls) := by
  intro ls
  induction ls with
  | nil => intro offset _; simp [segDistances]
  | cons len rest ih =>
    intro offset hpos
    rw [segDistances, List.chain'_append]
    have hlen0 : 0 ≤ len := hpos len (List.mem_cons_self _ _)
    have hrest : ∀ l ∈ rest, 0 ≤ l := fun l hl => hpos l (List.mem_cons_of_mem _ hl)
    refine ⟨linspace_chain offset (offset + len) (by linarith) _,
      ih (offset + len) hrest, ?_⟩
    intro x hxl y hyh
    have hxmem : x ∈ linspace offset (offset + len) (segN total N len) := by
      obtain ⟨hne', rfl⟩ := List.mem_getLast?_eq_getLast hxl
      exact List.getLast_mem hne'
    have hymem : y ∈ segDistances total N (offset + len) rest :=
      List.mem_of_mem_head? hyh
    have h1 := (linspace_mem_bounds offset (offset + len) (by linarith) _ x hxmem).2
    have h2 := (segDistances_mem_bounds total N rest (offset + len) hrest y hymem).1
    linarith

/-- With at least 2 samples, `linspace` ends exactly at its right endpoint. -/
theorem linspace_getLast (a b : ℚ) (n : ℕ) (hn : 2 ≤ n) :
    (linspace a b n).getLast? = some b := by
  obtain ⟨m, rfl⟩ : ∃ m, n = m + 1 := ⟨n - 1, by omega⟩
  rw [linspace, List.range_succ, List.map_append]
  rw [List.getLast?_append_of_ne_nil _ (by simp)]
  have hm0 : ((m : ℚ)) ≠ 0 := by
    have h1 : 1 ≤ m := by omega
    have : (1 : ℚ) ≤ (m : ℚ) := by exact_mod_cast h1
    linarith
  have hden : ((m + 1 : ℕ) : ℚ) - 1 = (m : ℚ) := by push_cast; ring
  simp only [List.map_cons, List.map_nil]
  rw [show ([a + (b - a) * ((m : ℕ) : ℚ) / (((m + 1 : ℕ) : ℚ) - 1)]).getLast? =
    some (a + (b - a) * ((m : ℕ) : ℚ) / (((m + 1 : ℕ) : ℚ) - 1)) from rfl]
  congr 1
  rw [hden, mul_div_assoc, div_self hm0, mul_one]
  ring

/-- When the last segment's row budget is at least 2, the concatenated
distance entries end exactly at `offset + sum of lengths`. -/
theorem segDistances_getLast (total : ℚ) (N : ℕ) :
    ∀ (ls : List ℚ) (offset lastLen : ℚ), ls.getLast? = some lastLen →
      2 ≤ segN total N lastLen →
      (segDistances total N offset ls).getLast? = some (offset + ls.sum) := by
  intro ls
  induction ls with
  | nil => intro offset lastLen h; cases h
  | cons len rest ih =>
    intro offset lastLen hlast hn
    cases rest with
    | nil =>
      have hl : len = lastLen := by simpa using hlast
      subst hl
      simp only [segDistances, List.append_nil, List.sum_cons, List.sum_nil,
        add_zero]
      exact linspace_getLast offset (offset + len) _ hn
    | cons l2 rest' =>
      rw [List.getLast?_cons_cons] at hlast
      have hrec := ih (offset + len) lastLen hlast hn
      rw [segDistances, List.getLast?_append_of_ne_nil _ ?_, hrec]
      · congr 1
        simp only [List.sum_cons]
        ring
      · intro hnil
        rw [hnil] at hrec
        cases hrec

/-! ## Claim theorems -/

/-- Claim C1 (code_bug evidence): with a `MovingNode` whose `running` flag is
already true (speed 1, speed_unit 1), `go()` still spawns an updater thread;
the `_moving_loop` prologue logs the already-running error yet sets
`running = True` and enters the loop (the source has no `return` after the
log); and two live loops each integrating the same 1-second wall-clock
interval advance `distance` by 2 — double the single-loop rate the claim
requires. -/
theorem go_double_start_runs_two_loops :
    go_spawns_updater ⟨true, 0, 1, 1⟩ = true ∧
    (moving_loop_prologue ⟨true, 0, 1, 1⟩).1 = true ∧
    (moving_loop_prologue ⟨true, 0, 1, 1⟩).2.running = true ∧
    (moving_loop_iter (moving_loop_iter
      (moving_loop_prologue ⟨true, 0, 1, 1⟩).2 1) 1).distance = 2 := by
  refine ⟨rfl, rfl, rfl, ?_⟩
  norm_num [moving_loop_prologue, moving_loop_iter]

/-- Claim C2 counterexample: two `MovingNode` instances constructed with
different `speed_unit` are distinct objects, yet the `_rlock` their `lock()`
acquires is the same lock — the class-level `RLock` — contradicting the
claimed per-entity distinct lock. -/
theorem distinct_nodes_share_class_rlock :
    MovingNode_init 1 ≠ MovingNode_init 2 ∧
    rlockOf (MovingNode_init 1) = rlockOf (MovingNode_init 2) := by
  refine ⟨fun h => ?_, rfl⟩
  have := congrArg MovingNodePy.speed_unit h
  norm_num [MovingNode_init] at this

/-- Claim C2 amended: `_rlock = RLock()` is evaluated once in the class body
of `MovingNode` and `__init__` never writes a per-instance `_rlock`, so every
instance's lock resolves to the single class-level lock: all entities share
one re-entrant lock. -/
theorem all_nodes_share_one_rlock (su1 su2 : ℚ) :
    rlockOf (MovingNode_init su1) = rlockOf (MovingNode_init su2) ∧
    rlockOf (MovingNode_init su1) = movingNodeClassRlock := ⟨rfl, rfl⟩

/-- Claim C3 counterexample: for the bomb created at `t0 = 10` with the
default duration 1 and base alpha 255, the alpha drawn at `t = t0` is not 0
(it is 255), and the alpha drawn at `t = t0 + duration` is not 255 (it is
0) — the opposite of the claimed fade-in. -/
theorem bomb_alpha_not_fading_in :
    (Bomb.init (0, 0) (some 10) none none none 0).draw_alpha (some 10) 7 ≠ 0 ∧
    (Bomb.init (0, 0) (some 10) none none none 0).draw_alpha (some 11) 7 ≠ 255 := by
  constructor <;>
    norm_num [Bomb.init, Bomb.draw_alpha, Bomb.fetch_now, resolveT, pyint]

/-- Claim C3 amended: the bomb fades out, not in: for any bomb with nonzero
`t0`, nonzero `duration` and nonzero `t0 + duration` (so the optional-time
truthiness test does not fire), the drawn alpha equals the base color's alpha
`a_max` at `t = t0` and equals 0 at `t = t0 + duration`, exactly; the radius
meanwhile grows from `r0` to `r1`. -/
theorem bomb_alpha_fades_out (b : Bomb) (now : ℚ) (h0 : b.t0 ≠ 0)
    (hd : b.duration ≠ 0) (h1 : b.t0 + b.duration ≠ 0) :
    b.draw_alpha (some b.t0) now = b.color.2.2.2 ∧
    b.draw_alpha (some (b.t0 + b.duration)) now = 0 := by
  constructor
  · have : (b.fetch_now (some b.t0) now).2 = 1 := by
      simp [Bomb.fetch_now, resolveT, h0]
    rw [Bomb.draw_alpha, this, mul_one, pyint_intCast]
  · have : (b.fetch_now (some (b.t0 + b.duration)) now).2 = 0 := by
      simp [Bomb.fetch_now, resolveT, h1]
      field_simp
    rw [Bomb.draw_alpha, this, mul_zero]
    simpa using pyint_intCast 0

/-- Claim C3 amended, witness: the concrete bomb started at `t0 = 10`,
duration 1, alpha 255 draws alpha 255 at `t = 10` and alpha 0 at `t = 11`. -/
theorem bomb_alpha_fades_out_witness :
    (Bomb.init (0, 0) (some 10) none none none 0).draw_alpha (some 10) 7 = 255 ∧
    (Bomb.init (0, 0) (some 10) none none none 0).draw_alpha (some 11) 7 = 0 := by
  have h := bomb_alpha_fades_out (Bomb.init (0, 0) (some 10) none none none 0) 7
    (by norm_num [Bomb.init, resolveT])
    (by norm_num [Bomb.init, resolveT])
    (by norm_num [Bomb.init, resolveT])
  have e : (10 : ℚ) + 1 = 11 := by norm_num
  simpa [Bomb.init, resolveT, e] using h

/-- Claim C5 counterexample: for the bomb created at `t0 = 10` (duration 1,
`r0 = 10`, `r1 = 20`), `fetch_now` at `t = 11` returns progress exactly 0 and
radius 20 = `r1`, not `r0` as the claim's interpolation orientation
requires. -/
theorem fetch_now_radius_is_r1_at_progress_zero :
    ((Bomb.init (0, 0) (some 10) none none none 0).fetch_now (some 11) 3).2 = 0 ∧
    ((Bomb.init (0, 0) (some 10) none none none 0).fetch_now (some 11) 3).1 = 20 ∧
    ((Bomb.init (0, 0) (some 10) none none none 0).fetch_now (some 11) 3).1 ≠
      (Bomb.init (0, 0) (some 10) none none none 0).r0 := by
  refine ⟨?_, ?_, ?_⟩ <;> norm_num [Bomb.init, Bomb.fetch_now, resolveT]

/-- Claim C5 amended: `fetch_now` returns the linear interpolation
`r0 * progress + r1 * (1 - progress)` in `progress = 1 - (t - t0)/duration`,
taking the value `r1` as progress → 0 and `r0` as progress → 1 (the claim had
the two endpoints swapped). -/
theorem fetch_now_lerp (b : Bomb) (t : Option ℚ) (now : ℚ) :
    (b.fetch_now t now).1 =
      b.r0 * (b.fetch_now t now).2 + b.r1 * (1 - (b.fetch_now t now).2) ∧
    ((b.fetch_now t now).2 = 0 → (b.fetch_now t now).1 = b.r1) ∧
    ((b.fetch_now t now).2 = 1 → (b.fetch_now t now).1 = b.r0) := by
  refine ⟨rfl, fun h => ?_, fun h => ?_⟩ <;>
    · rw [show (b.fetch_now t now).1 =
        b.r0 * (b.fetch_now t now).2 + b.r1 * (1 - (b.fetch_now t now).2) from rfl, h]
      ring

/-- Claim C5 amended, witness: at progress 0 (bomb from `t0 = 10`, queried at
`t = 11`) the radius equals `r1`. -/
theorem fetch_now_lerp_witness :
    ((Bomb.init (0, 0) (some 10) none none none 0).fetch_now (some 11) 3).1 =
      (Bomb.init (0, 0) (some 10) none none none 0).r1 :=
  (fetch_now_lerp (Bomb.init (0, 0) (some 10) none none none 0) (some 11) 3).2.1
    (by norm_num [Bomb.init, Bomb.fetch_now, resolveT])

/-- Claim C9 counterexample: removing the registered, running entity `mn1`
pops it from the registry with its `running` flag still true — `stop()` was
not called before the entity was dropped, contradicting the claim. -/
theorem remove_node_pops_without_stopping :
    (handle_remove_node [("mn1", ⟨true, 0⟩)] "mn1").2 = some ⟨true, 0⟩ ∧
    (handle_remove_node [("mn1", ⟨true, 0⟩)] "mn1").1.lookup "mn1" = none := by
  constructor <;> simp [handle_remove_node, List.filter, List.lookup]

/-- Claim C9 amended: the remove-entity handler drops the binding from the
registry — afterwards the name is no longer registered — but it never calls
`stop()`: the popped entity's state, its `running` flag included, is exactly
what the registry stored. -/
theorem remove_node_drops_name_without_stop (pool : List (String × NodeRec))
    (name : String) :
    (handle_remove_node pool name).1.lookup name = none ∧
    (∀ r : NodeRec, pool.lookup name = some r →
      (handle_remove_node pool name).2 = some r) := by
  exact ⟨lookup_filter_ne name pool, fun r hr => hr⟩

/-- Claim C9 amended, witness: a one-entry registry holding a running entity
under the name `a`: after removal the name is unregistered and the popped
state still has `running = true`. -/
theorem remove_node_drops_name_without_stop_witness :
    (handle_remove_node [("a", ⟨true, 5⟩)] "a").1.lookup "a" = none ∧
    (handle_remove_node [("a", ⟨true, 5⟩)] "a").2 = some ⟨true, 5⟩ := by
  refine ⟨(remove_node_drops_name_without_stop [("a", ⟨true, 5⟩)] "a").1, ?_⟩
  exact (remove_node_drops_name_without_stop [("a", ⟨true, 5⟩)] "a").2
    ⟨true, 5⟩ (by simp [List.lookup])

/-- Claim C10: at the Bomb/BombThrower interface every optional time
parameter treats the falsy value 0 as an omitted argument: constructing with
`t0 = 0`, `fetch_now(0)`, `check_if_expired(0)` and `throw_bomb(0)` all
behave exactly as with no argument, substituting the current wall-clock time;
in particular `check_if_expired(0)` evaluates `now > t1`, never `0 > t1`. -/
theorem optional_time_zero_means_now (pos : ℚ × ℚ) (dur : Option ℚ)
    (col : Option RGBA) (nm : Option String) (b : Bomb) (tw : Option ℚ)
    (dt now : ℚ) :
    Bomb.init pos (some 0) dur col nm now = Bomb.init pos none dur col nm now ∧
    b.fetch_now (some 0) now = b.fetch_now none now ∧
    b.check_if_expired (some 0) now = b.check_if_expired none now ∧
    b.check_if_expired (some 0) now = decide (now > b.t1) ∧
    throw_bomb tw dt (some 0) now = throw_bomb tw dt none now := by
  refine ⟨?_, ?_, ?_, ?_, ?_⟩ <;>
    simp [Bomb.init, Bomb.fetch_now, Bomb.check_if_expired, throw_bomb,
      compute_next_t_throw, resolveT]

/-- Claim C6: for segment arc lengths that are non-negative (as arc lengths
are), the cumulative `distance` column built by `setup_road` is non-decreasing
from row to row, and — whenever the last segment's integer row budget is at
least 2, so that its `linspace` actually reaches its right endpoint — the last
entry equals the sum of all segment arc lengths exactly (tolerance 0 in exact
arithmetic). -/
theorem distance_column_monotone_spans_total (lengths : List ℚ) (N : ℕ)
    (lastLen : ℚ) (hpos : ∀ l ∈ lengths, 0 ≤ l)
    (hlast : lengths.getLast? = some lastLen)
    (hn : 2 ≤ segN lengths.sum N lastLen) :
    List.Chain' (· ≤ ·) (distance_column lengths N) ∧
    (distance_column lengths N).getLast? = some lengths.sum := by
  unfold distance_column
  refine ⟨segDistances_chain lengths.sum N lengths 0 hpos, ?_⟩
  have h := segDistances_getLast lengths.sum N lengths 0 lastLen hlast hn
  simpa using h

/-- Claim C6 witness: two segments of arc length 1/2 with a 8-row budget —
each segment receives 4 rows — give a non-decreasing distance column ending
exactly at the total length 1. -/
theorem distance_column_monotone_spans_total_witness :
    List.Chain' (· ≤ ·) (distance_column [(1 : ℚ)/2, 1/2] 8) ∧
    (distance_column [(1 : ℚ)/2, 1/2] 8).getLast? = some 1 := by
  have hseg : segN ([(1 : ℚ)/2, 1/2].sum) 8 (1/2) = 4 := by
    have he : ((1 : ℚ)/2) / ([(1 : ℚ)/2, 1/2].sum) * ((8 : ℕ) : ℚ) =
        ((4 : ℤ) : ℚ) := by norm_num
    rw [segN, he, pyint_intCast]
    rfl
  have h := distance_column_monotone_spans_total [(1 : ℚ)/2, 1/2] 8 (1/2)
    (by norm_num) (by rfl) (by rw [hseg]; norm_num)
  have hsum : ([(1 : ℚ)/2, 1/2].sum) = 1 := by norm_num
  rw [hsum] at h
  exact h

/-- Claim C4: for a built (hence distance-sorted, nonempty) path table, the
compositor's position lookup reduces the query modulo the total curve length
and returns the table row with the greatest cumulative distance strictly less
than the reduced value; when no row's distance is strictly less it returns
the first row.  No interpolation: the result is a row of the table itself. -/
theorem lookup_greatest_row_below (table : List TableRow) (L d : ℚ)
    (hsort : table.Pairwise fun r s => r.distance ≤ s.distance)
    (hne : table ≠ []) :
    ∃ r, draw_node_lookup table L d = some r ∧
      ((∀ s ∈ table, ¬ s.distance < pymod d L) → table.head? = some r) ∧
      ((∃ s ∈ table, s.distance < pymod d L) →
        r ∈ table ∧ r.distance < pymod d L ∧
        ∀ s ∈ table, s.distance < pymod d L → s.distance ≤ r.distance) := by
  have hfl : List.Sublist
      (table.filter fun r => decide (r.distance < pymod d L)) table :=
    List.filter_sublist table
  cases hgl : (table.filter fun r => decide (r.distance < pymod d L)).getLast? with
  | none =>
    have hfle : (table.filter fun r => decide (r.distance < pymod d L)) = [] :=
      List.getLast?_eq_none_iff.mp hgl
    obtain ⟨h0, hh⟩ : ∃ h0, table.head? = some h0 := by
      cases table with
      | nil => exact absurd rfl hne
      | cons a t => exact ⟨a, rfl⟩
    refine ⟨h0, ?_, fun _ => hh, fun hex => ?_⟩
    · simp only [draw_node_lookup, hgl, hh]
    · exfalso
      obtain ⟨s, hs, hlt⟩ := hex
      have hmem : s ∈ (table.filter fun r => decide (r.distance < pymod d L)) :=
        List.mem_filter.mpr ⟨hs, by simpa using hlt⟩
      rw [hfle] at hmem
      cases hmem
  | some r =>
    have hrfl : r ∈ (table.filter fun r => decide (r.distance < pymod d L)) := by
      obtain ⟨hne', rfl⟩ := List.mem_getLast?_eq_getLast hgl
      exact List.getLast_mem hne'
    have hrt : r ∈ table := (List.mem_filter.mp hrfl).1
    have hrlt : r.distance < pymod d L := by
      simpa using (List.mem_filter.mp hrfl).2
    refine ⟨r, by simp only [draw_node_lookup, hgl],
      fun hall => absurd hrlt (hall r hrt), fun _ => ⟨hrt, hrlt, ?_⟩⟩
    intro s hs hslt
    have hsfl : s ∈ (table.filter fun r => decide (r.distance < pymod d L)) :=
      List.mem_filter.mpr ⟨hs, by simpa using hslt⟩
    rcases pairwise_rel_getLast (hsort.sublist hfl) hsfl hgl with h | h
    · rw [h]
    · exact h

/-- Claim C4 witness: the sorted two-row table with distances 1 and 2, total
length 4, queried at 13/2 (reduced to 5/2): both rows are strictly below, and
the lookup picks the greatest one. -/
theorem lookup_greatest_row_below_witness :
    ∃ r, draw_node_lookup [⟨1, (0, 0)⟩, ⟨2, (1, 1)⟩] 4 (13/2) = some r ∧
      ((∀ s ∈ [TableRow.mk 1 (0, 0), TableRow.mk 2 (1, 1)],
          ¬ s.distance < pymod (13/2) 4) →
        ([TableRow.mk 1 (0, 0), TableRow.mk 2 (1, 1)]).head? = some r) ∧
      ((∃ s ∈ [TableRow.mk 1 (0, 0), TableRow.mk 2 (1, 1)],
          s.distance < pymod (13/2) 4) →
        r ∈ [TableRow.mk 1 (0, 0), TableRow.mk 2 (1, 1)] ∧
        r.distance < pymod (13/2) 4 ∧
        ∀ s ∈ [TableRow.mk 1 (0, 0), TableRow.mk 2 (1, 1)],
          s.distance < pymod (13/2) 4 → s.distance ≤ r.distance) :=
  lookup_greatest_row_below [⟨1, (0, 0)⟩, ⟨2, (1, 1)⟩] 4 (13/2)
    (by norm_num [List.pairwise_cons]) (by simp)

/-- Wrapping by whole multiples of a nonzero modulus leaves the Python float
remainder unchanged. -/
theorem pymod_add_int_mul (d L : ℚ) (k : ℤ) (hL : L ≠ 0) :
    pymod (d + k * L) L = pymod d L := by
  unfold pymod
  have h : (d + (k : ℚ) * L) / L = d / L + (k : ℚ) := by
    field_simp
  rw [h, Int.floor_add_int]
  push_cast
  ring

/-- Claim C7: the table row resolved by the position lookup for
`d + k * total_curve_length` is the row resolved for `d`, for every real `d`
and integer `k`: the lookup is invariant under whole wraps of the path. -/
theorem lookup_invariant_under_wrap (table : List TableRow) (L d : ℚ)
    (hL : 0 < L) (k : ℤ) :
    draw_node_lookup table L (d + k * L) = draw_node_lookup table L d := by
  unfold draw_node_lookup
  rw [pymod_add_int_mul d L k (ne_of_gt hL)]

/-- Claim C7 witness: a one-row table with total length 2, query 1/2 shifted
by 3 whole laps. -/
theorem lookup_invariant_under_wrap_witness :
    draw_node_lookup [⟨1, (0, 0)⟩] 2 (1/2 + (3 : ℤ) * 2) =
      draw_node_lookup [⟨1, (0, 0)⟩] 2 (1/2) :=
  lookup_invariant_under_wrap [⟨1, (0, 0)⟩] 2 (1/2) (by norm_num) 3

/-- Claim C8 counterexample: two coinciding consecutive checkpoints — a case
the claim says must fail with `DegenerateInput` — build curves without any
error, and a single checkpoint fails with `NameError` (the unbound loop
variable `p2`), not with `DegenerateInput`. -/
theorem coinciding_checkpoints_build_without_error :
    (setup_road_curves normOnAxis [((0 : ℚ), (0 : ℚ)), ((0 : ℚ), (0 : ℚ))]).isOk
        = true ∧
    setup_road_curves normOnAxis [((0 : ℚ), (0 : ℚ))] = .error .nameError := by
  constructor <;>
    norm_num [setup_road_curves, extend_check_points, extendPairs, extendChunk,
      normOnAxis, psub, Except.bind, mk_curve, Except.isOk, Except.toBool]

/-- Claim C8 amended: curve construction as invoked by `setup_road` never
produces a `DegenerateInput` error: with fewer than 2 checkpoints it fails
with the (undocumented) `NameError` raised by the unbound loop variable in
`extend_check_points`, and with at least 2 checkpoints — coinciding
consecutive checkpoints included — it succeeds, numpy turning the zero-chord
divisions into silent `nan`s rather than exceptions. -/
theorem curve_construction_error_kinds (norm : Point → ℚ) (cps : List Point) :
    (cps.length < 2 → setup_road_curves norm cps = .error .nameError) ∧
    (2 ≤ cps.length → (setup_road_curves norm cps).isOk = true) ∧
    setup_road_curves norm cps ≠ .error .degenerateInput := by
  have h1 : cps.length < 2 → setup_road_curves norm cps = .error .nameError := by
    intro h
    simp [setup_road_curves, extend_check_points, h, Except.bind]
  have h2 : 2 ≤ cps.length → (setup_road_curves norm cps).isOk = true := by
    intro h
    obtain ⟨p1, p2, rest, rfl⟩ : ∃ p1 p2 rest, cps = p1 :: p2 :: rest := by
      cases cps with
      | nil => simp at h
      | cons a t =>
        cases t with
        | nil => simp at h
        | cons b t' => exact ⟨a, b, t', rfl⟩
    have hnl : ¬ ((p1 :: p2 :: rest).length < 2) := by simp
    have hlen : ¬ ((extendPairs norm (3/10) (1/10) (p1 :: p2 :: rest) ++
        [((p1 :: p2 :: rest).getLast?).getD (0, 0)]).length < 2) := by
      rw [List.length_append]
      have := extendPairs_length_pos norm (3/10) (1/10) p1 p2 rest
      simp only [List.length_singleton]
      omega
    have e1 : extend_check_points norm (p1 :: p2 :: rest) =
        .ok (extendPairs norm (3/10) (1/10) (p1 :: p2 :: rest) ++
          [((p1 :: p2 :: rest).getLast?).getD (0, 0)]) := by
      rw [extend_check_points, if_neg hnl]
    rw [setup_road_curves, e1]
    show (mk_curve norm _).isOk = true
    rw [mk_curve, if_neg hlen]
    rfl
  refine ⟨h1, h2, ?_⟩
  rcases Nat.lt_or_ge cps.length 2 with hlt | hge
  · rw [h1 hlt]
    intro hc
    exact absurd (by injection hc) (by simp)
  · intro hc
    have hok := h2 hge
    rw [hc] at hok
    exact Bool.noConfusion hok

/-- Claim C8 amended, witness: one checkpoint raises `NameError`; two
distinct checkpoints (a unit chord) build successfully. -/
theorem curve_construction_error_kinds_witness :
    setup_road_curves normOnAxis [((0 : ℚ), (5 : ℚ))] = .error .nameError ∧
    (setup_road_curves normOnAxis [((0 : ℚ), (0 : ℚ)), ((1 : ℚ), (0 : ℚ))]).isOk
      = true :=
  ⟨(curve_construction_error_kinds normOnAxis [((0 : ℚ), (5 : ℚ))]).1 (by simp),
   (curve_construction_error_kinds normOnAxis
      [((0 : ℚ), (0 : ℚ)), ((1 : ℚ), (0 : ℚ))]).2.1 (by simp)⟩

end OnScreenDisplay
